import Mathlib

/-!
# Verification of the order-assignment mechanism of `dj5-elearn`

Shallow embedding of `src/educa/courses/fields.py` (`OrderField` and its
`pre_save` method) together with the sibling-scope data model used by
`src/educa/courses/models.py` (`Module.order = OrderField(for_fields=['course'])`,
`Content.order = OrderField(for_fields=['module'])`).

A Django model instance is embedded as a finite attribute dictionary mapping
attribute names to values.  The only attribute values the order-assignment
logic ever reads are integers (foreign-key ids, order values) and Python's
`None`, so a value is `Option Int` (`none` = Python `None`).  An attribute that
is absent from the dictionary models an attribute whose read raises
`AttributeError`.  The database is the list of persisted rows of one model
type (`self.model.objects.all()`), each row again an attribute dictionary.
-/

instance {ε α : Type} [DecidableEq ε] [DecidableEq α] : DecidableEq (Except ε α) := fun x y =>
  match x, y with
  | .error e, .error f =>
    if h : e = f then .isTrue (by rw [h]) else .isFalse (by intro hc; cases hc; exact h rfl)
  | .error _, .ok _ => .isFalse (by intro hc; cases hc)
  | .ok _, .error _ => .isFalse (by intro hc; cases hc)
  | .ok a, .ok b =>
    if h : a = b then .isTrue (by rw [h]) else .isFalse (by intro hc; cases hc; exact h rfl)

/-- An attribute dictionary: association list from attribute names to values.
A value is `Option Int`: `none` is Python `None`, `some i` an integer. -/
def AttrList := List (String × Option Int)

instance : DecidableEq AttrList := by
  unfold AttrList
  infer_instance

/-- A Django model instance (or a persisted row): its attribute dictionary. -/
structure ModelInstance where
  attrs : List (String × Option Int)
deriving DecidableEq, Repr

/-- Python attribute read on an association list: the first binding wins
(a dictionary has at most one).  `none` models `AttributeError`, `some v`
a successful read of value `v` (which may itself be Python `None`). -/
def lookupAttr (name : String) : List (String × Option Int) → Option (Option Int)
  | [] => none
  | p :: rest => if p.1 = name then some p.2 else lookupAttr name rest

/-- `getattr(model_instance, name)`: `none` models a raised `AttributeError`. -/
def getattr (inst : ModelInstance) (name : String) : Option (Option Int) :=
  lookupAttr name inst.attrs

/-- Replace the first binding of `name` (Python `setattr` on an existing
attribute); append a fresh binding if the attribute was absent. -/
def setAttrList (name : String) (v : Option Int) :
    List (String × Option Int) → List (String × Option Int)
  | [] => [(name, v)]
  | p :: rest => if p.1 = name then (name, v) :: rest else p :: setAttrList name v rest

/-- `setattr(model_instance, name, v)`. -/
def setattr (inst : ModelInstance) (name : String) (v : Option Int) : ModelInstance :=
  ⟨setAttrList name v inst.attrs⟩

/-- The Python exceptions that can escape or be caught inside `pre_save`:
`AttributeError` from `getattr` on a missing attribute, and `TypeError`
from `None + 1`.  `ObjectDoesNotExist` is caught inside `pre_save` and
therefore never appears in its result. -/
inductive PyError where
  | attributeError (name : String)
  | typeError
deriving DecidableEq, Repr

/-- The state of an `OrderField` as configured in `OrderField.__init__`:
the optional `for_fields` scope-attribute names (Python `None` and `[]` are
both falsy for `if self.for_fields:`, so both are embedded as `[]`) and the
field's attribute name `attname` (`'order'` on both models). -/
structure OrderField where
  for_fields : List String
  attname : String
deriving DecidableEq, Repr

/-- `OrderField.__init__(for_fields=...)` merely stores `for_fields`; it
performs no validation of the names whatsoever. -/
def OrderField.init (for_fields : List String) (attname : String) : OrderField :=
  ⟨for_fields, attname⟩

/-- The dict comprehension
`{field: getattr(model_instance, field) for field in self.for_fields}`:
reads each scope attribute off the candidate in order, raising
`AttributeError` at the first name that is not an attribute. -/
def buildQuery (inst : ModelInstance) : List String → Except PyError (List (String × Option Int))
  | [] => .ok []
  | fld :: rest =>
    match getattr inst fld with
    | none => .error (.attributeError fld)
    | some v =>
      match buildQuery inst rest with
      | .error e => .error e
      | .ok q => .ok ((fld, v) :: q)

/-- `qs.filter(**query)`: a row matches when every queried column equals the
queried value (equality match on each named scope field). -/
def matchesQuery (q : List (String × Option Int)) (row : ModelInstance) : Bool :=
  q.all (fun p => getattr row p.1 == some p.2)

/-- The sort key a row contributes to `qs.latest(attname)`: its `attname`
column joined to a single `Option Int` (`none` when the column is SQL NULL;
a persisted row always has the column, the order column is NOT NULL). -/
def rowKey (attname : String) (row : ModelInstance) : Option Int :=
  Option.join (getattr row attname)

/-- Comparison used by `latest`: SQL `ORDER BY attname DESC` places NULLs
last, so `none` compares below every integer. -/
def optKeyLe (a b : Option Int) : Bool :=
  match a, b with
  | none, _ => true
  | some _, none => false
  | some x, some y => decide (x ≤ y)

/-- `qs.latest(attname)`: the row with the greatest `attname` value, `none`
when the queryset is empty (Django raises `ObjectDoesNotExist` there, which
`pre_save` catches).  On ties any maximal row may be returned by the
database; the embedding picks one deterministically. -/
def latest (attname : String) : List ModelInstance → Option ModelInstance
  | [] => none
  | r :: rs =>
    match latest attname rs with
    | none => some r
    | some b => if optKeyLe (rowKey attname b) (rowKey attname r) then some r else some b

/-- `qs = self.model.objects.all()` followed by
`if self.for_fields: qs = qs.filter(**query)` — the queryset `pre_save`
hands to `latest`, or the uncaught `AttributeError` from the comprehension. -/
def filteredQS (f : OrderField) (db : List ModelInstance) (inst : ModelInstance) :
    Except PyError (List ModelInstance) :=
  if f.for_fields.isEmpty then .ok db
  else
    match buildQuery inst f.for_fields with
    | .error e => .error e
    | .ok q => .ok (db.filter (matchesQuery q))

/-- `OrderField.pre_save(model_instance, add)` from
`src/educa/courses/fields.py`, over database state `db`
(`self.model.objects.all()`).  Returns the (possibly mutated) instance
together with the value handed to the persistence layer, or the Python
exception that escapes.  The `add` flag is ignored by the source.  In the
pass-through branch `super().pre_save` is Django's
`Field.pre_save(model_instance, add)`, which returns
`getattr(model_instance, self.attname)` unchanged. -/
def OrderField.pre_save (f : OrderField) (db : List ModelInstance) (inst : ModelInstance) :
    Except PyError (ModelInstance × Int) :=
  match getattr inst f.attname with
  | none => .error (.attributeError f.attname)
  | some (some v) => .ok (inst, v)
  | some none =>
    match filteredQS f db inst with
    | .error e => .error e
    | .ok qs =>
      match latest f.attname qs with
      | none => .ok (setattr inst f.attname (some 0), 0)
      | some last =>
        match getattr last f.attname with
        | none => .error (.attributeError f.attname)
        | some none => .error .typeError
        | some (some w) => .ok (setattr inst f.attname (some (w + 1)), w + 1)

/-- One insert through the persistence layer: `pre_save` runs, then the
mutated instance is appended to the table as a new row whose order column
holds the returned value. -/
def save (f : OrderField) (db : List ModelInstance) (inst : ModelInstance) :
    Except PyError (List ModelInstance × ModelInstance × Int) :=
  match f.pre_save db inst with
  | .error e => .error e
  | .ok (inst', v) => .ok (db ++ [inst'], inst', v)

/-- A sequence of inserts, returning the final table and the order values
assigned in insertion order. -/
def saveAll (f : OrderField) (db : List ModelInstance) :
    List ModelInstance → Except PyError (List ModelInstance × List Int)
  | [] => .ok (db, [])
  | inst :: rest =>
    match save f db inst with
    | .error e => .error e
    | .ok (db', _, v) =>
      match saveAll f db' rest with
      | .error e => .error e
      | .ok (db'', vs) => .ok (db'', v :: vs)

/-- Spec-side scope membership ("records matching the candidate on every
configured scope field"): the row agrees with the candidate on each
`for_fields` attribute. -/
def scopeMatches (f : OrderField) (inst row : ModelInstance) : Bool :=
  f.for_fields.all (fun fld => getattr row fld == getattr inst fld)

/-- Spec-side sibling order multiset: the order values of the existing rows
in the candidate's scope. -/
def siblingOrders (f : OrderField) (db : List ModelInstance) (inst : ModelInstance) : List Int :=
  (db.filter (scopeMatches f inst)).filterMap (rowKey f.attname)

/-- Maximum of a list of integers, `none` on the empty list. -/
def maxInt : List Int → Option Int
  | [] => none
  | x :: xs =>
    match maxInt xs with
    | none => some x
    | some m => some (max x m)

/-- Spec-side next order value: "one plus the maximum existing order value
in that scope, or zero if the scope is empty". -/
def specNext (orders : List Int) : Int :=
  match maxInt orders with
  | none => 0
  | some m => m + 1

/-- Two rows are in the same scope when they agree on every scope field. -/
def sameScope (f : OrderField) (r s : ModelInstance) : Bool :=
  f.for_fields.all (fun fld => getattr r fld == getattr s fld)

/-- Order values are unique within every scope of the table: no two rows in
the same scope carry the same order value. -/
def ordersUnique (f : OrderField) : List ModelInstance → Bool
  | [] => true
  | r :: rs =>
    rs.all (fun s => !(sameScope f r s) || (rowKey f.attname r != rowKey f.attname s))
      && ordersUnique f rs

/-- `Module.order = OrderField(blank=True, for_fields=['course'])`. -/
def moduleOrder : OrderField := OrderField.init ["course"] "order"

/-- `Content.order = OrderField(blank=True, for_fields=['module'])`. -/
def contentOrder : OrderField := OrderField.init ["module"] "order"

example : moduleOrder.pre_save [] ⟨[("course", some 1), ("order", none)]⟩ =
    .ok (⟨[("course", some 1), ("order", some 0)]⟩, 0) := by decide

example :
    moduleOrder.pre_save [⟨[("course", some 1), ("order", some 4)]⟩]
      ⟨[("course", some 1), ("order", none)]⟩ =
    .ok (⟨[("course", some 1), ("order", some 5)]⟩, 5) := by decide

example :
    moduleOrder.pre_save [⟨[("course", some 2), ("order", some 4)]⟩]
      ⟨[("course", some 1), ("order", none)]⟩ =
    .ok (⟨[("course", some 1), ("order", some 0)]⟩, 0) := by decide

/-! ## Attribute-dictionary lemmas -/

theorem lookupAttr_setAttrList_self (n : String) (v : Option Int)
    (l : List (String × Option Int)) :
    lookupAttr n (setAttrList n v l) = some v := by
  induction l with
  | nil => simp [setAttrList, lookupAttr]
  | cons p rest ih =>
    by_cases h : p.1 = n
    · simp [setAttrList, h, lookupAttr]
    · simp [setAttrList, h, lookupAttr, ih]

theorem lookupAttr_setAttrList_ne (n m : String) (v : Option Int)
    (l : List (String × Option Int)) (h : n ≠ m) :
    lookupAttr m (setAttrList n v l) = lookupAttr m l := by
  induction l with
  | nil => simp [setAttrList, lookupAttr, h]
  | cons p rest ih =>
    by_cases hp : p.1 = n
    · simp [setAttrList, hp, lookupAttr, h]
    · simp [setAttrList, hp, lookupAttr, ih]

theorem getattr_setattr_self (inst : ModelInstance) (n : String) (v : Option Int) :
    getattr (setattr inst n v) n = some v :=
  lookupAttr_setAttrList_self n v inst.attrs

theorem getattr_setattr_ne (inst : ModelInstance) (n m : String) (v : Option Int)
    (h : n ≠ m) : getattr (setattr inst n v) m = getattr inst m :=
  lookupAttr_setAttrList_ne n m v inst.attrs h

/-! ## Query-building lemmas -/

theorem buildQuery_ok_of_isSome (inst : ModelInstance) (fields : List String)
    (h : ∀ fld ∈ fields, (getattr inst fld).isSome) :
    ∃ q, buildQuery inst fields = .ok q := by
  induction fields with
  | nil => exact ⟨[], rfl⟩
  | cons fld rest ih =>
    have hf : (getattr inst fld).isSome := h fld (by simp)
    obtain ⟨v, hv⟩ := Option.isSome_iff_exists.mp hf
    obtain ⟨q, hq⟩ := ih (fun g hg => h g (by simp [hg]))
    exact ⟨(fld, v) :: q, by simp [buildQuery, hv, hq]⟩

theorem matchesQuery_of_buildQuery (inst : ModelInstance) (fields : List String)
    (q : List (String × Option Int)) (hq : buildQuery inst fields = .ok q)
    (row : ModelInstance) :
    matchesQuery q row = fields.all (fun fld => getattr row fld == getattr inst fld) := by
  induction fields generalizing q with
  | nil =>
    simp [buildQuery] at hq
    subst hq
    simp [matchesQuery]
  | cons fld rest ih =>
    unfold buildQuery at hq
    cases hv : getattr inst fld with
    | none => simp [hv] at hq
    | some v =>
      simp only [hv] at hq
      cases hrest : buildQuery inst rest with
      | error e => simp [hrest] at hq
      | ok q' =>
        simp only [hrest] at hq
        cases hq
        have hih := ih q' hrest
        simp only [matchesQuery, List.all_cons] at hih ⊢
        rw [hih, hv]

theorem buildQuery_error_of_missing (inst : ModelInstance) (fields : List String)
    (fld : String) (hmem : fld ∈ fields) (hmiss : getattr inst fld = none) :
    ∃ g ∈ fields, getattr inst g = none ∧
      buildQuery inst fields = .error (.attributeError g) := by
  induction fields with
  | nil => cases hmem
  | cons f0 rest ih =>
    cases hv : getattr inst f0 with
    | none => exact ⟨f0, by simp, hv, by simp [buildQuery, hv]⟩
    | some v =>
      have hmem' : fld ∈ rest := by
        rcases List.mem_cons.mp hmem with h | h
        · subst h; rw [hv] at hmiss; cases hmiss
        · exact h
      obtain ⟨g, hg, hgn, hbq⟩ := ih hmem'
      exact ⟨g, by simp [hg], hgn, by simp [buildQuery, hv, hbq]⟩

/-! ## Filtered-queryset lemmas -/

theorem scopeMatches_empty (a : String) (inst row : ModelInstance) :
    scopeMatches ⟨[], a⟩ inst row = true := by
  simp [scopeMatches]

theorem filteredQS_eq (f : OrderField) (db : List ModelInstance) (inst : ModelInstance)
    (hscope : ∀ fld ∈ f.for_fields, (getattr inst fld).isSome) :
    filteredQS f db inst = .ok (db.filter (scopeMatches f inst)) := by
  unfold filteredQS
  cases hff : f.for_fields with
  | nil =>
    have : db.filter (scopeMatches f inst) = db := by
      apply List.filter_eq_self.mpr
      intro r _
      simp [scopeMatches, hff]
    simp [hff, this]
  | cons f0 rest =>
    obtain ⟨q, hq⟩ := buildQuery_ok_of_isSome inst f.for_fields hscope
    have hmatch : ∀ row, matchesQuery q row = scopeMatches f inst row := fun row =>
      matchesQuery_of_buildQuery inst f.for_fields q hq row
    rw [hff] at hq
    simp only [List.isEmpty_cons, Bool.false_eq_true, if_false, hq]
    congr 1
    exact List.filter_congr (fun row _ => hmatch row)

/-! ## `latest` and `maxInt` lemmas -/

theorem optKeyLe_refl (a : Option Int) : optKeyLe a a = true := by
  cases a <;> simp [optKeyLe]

theorem optKeyLe_trans (a b c : Option Int) (h1 : optKeyLe a b = true)
    (h2 : optKeyLe b c = true) : optKeyLe a c = true := by
  cases a <;> cases b <;> cases c <;> simp_all [optKeyLe] <;> omega

theorem optKeyLe_total (a b : Option Int) (h : optKeyLe a b = false) :
    optKeyLe b a = true := by
  cases a <;> cases b <;> simp_all [optKeyLe] <;> omega

theorem latest_eq_none_iff (a : String) (qs : List ModelInstance) :
    latest a qs = none ↔ qs = [] := by
  cases qs with
  | nil => simp [latest]
  | cons r rs =>
    simp only [latest]
    constructor
    · intro h
      cases hl : latest a rs with
      | none => rw [hl] at h; cases h
      | some b =>
        simp only [hl] at h
        by_cases hc : optKeyLe (rowKey a b) (rowKey a r) = true
        · rw [if_pos hc] at h; cases h
        · rw [if_neg hc] at h; cases h
    · intro h; cases h

theorem latest_mem (a : String) (qs : List ModelInstance) (r : ModelInstance)
    (h : latest a qs = some r) : r ∈ qs := by
  induction qs generalizing r with
  | nil => cases h
  | cons r0 rs ih =>
    simp only [latest] at h
    cases hl : latest a rs with
    | none =>
      rw [hl] at h
      cases h
      exact List.mem_cons_self r0 rs
    | some b =>
      simp only [hl] at h
      by_cases hc : optKeyLe (rowKey a b) (rowKey a r0) = true
      · rw [if_pos hc] at h
        cases h
        exact List.mem_cons_self r0 rs
      · rw [if_neg hc] at h
        cases h
        exact List.mem_cons_of_mem r0 (ih r hl)

theorem latest_ge (a : String) (qs : List ModelInstance) (r : ModelInstance)
    (h : latest a qs = some r) :
    ∀ s ∈ qs, optKeyLe (rowKey a s) (rowKey a r) = true := by
  induction qs generalizing r with
  | nil => cases h
  | cons r0 rs ih =>
    intro s hs
    simp only [latest] at h
    cases hl : latest a rs with
    | none =>
      have hrs : rs = [] := (latest_eq_none_iff a rs).mp hl
      rw [hl] at h
      cases h
      subst hrs
      rcases List.mem_cons.mp hs with h | h
      · subst h; exact optKeyLe_refl _
      · cases h
    | some b =>
      simp only [hl] at h
      by_cases hc : optKeyLe (rowKey a b) (rowKey a r0) = true
      · rw [if_pos hc] at h
        cases h
        rcases List.mem_cons.mp hs with h | h
        · subst h; exact optKeyLe_refl _
        · exact optKeyLe_trans _ _ _ (ih b hl s h) hc
      · rw [if_neg hc] at h
        cases h
        rcases List.mem_cons.mp hs with h | h
        · subst h
          exact optKeyLe_total _ _ (Bool.eq_false_iff.mpr hc)
        · exact ih r hl s h

theorem maxInt_eq_none_iff (l : List Int) : maxInt l = none ↔ l = [] := by
  cases l with
  | nil => simp [maxInt]
  | cons x xs =>
    simp only [maxInt]
    constructor
    · intro h
      cases hm : maxInt xs <;> rw [hm] at h <;> cases h
    · intro h; cases h

theorem maxInt_mem (l : List Int) (m : Int) (h : maxInt l = some m) : m ∈ l := by
  induction l generalizing m with
  | nil => cases h
  | cons x xs ih =>
    simp only [maxInt] at h
    cases hm : maxInt xs with
    | none =>
      rw [hm] at h
      cases h
      exact List.mem_cons_self x xs
    | some u =>
      rw [hm] at h
      cases h
      rcases max_choice x u with hx | hx <;> rw [hx]
      · exact List.mem_cons_self x xs
      · exact List.mem_cons_of_mem x (ih u hm)

theorem maxInt_le (l : List Int) (m : Int) (h : maxInt l = some m) :
    ∀ x ∈ l, x ≤ m := by
  induction l generalizing m with
  | nil => intro x hx; cases hx
  | cons y ys ih =>
    intro x hx
    simp only [maxInt] at h
    cases hm : maxInt ys with
    | none =>
      have hys : ys = [] := (maxInt_eq_none_iff ys).mp hm
      rw [hm] at h
      cases h
      subst hys
      rcases List.mem_cons.mp hx with h | h
      · subst h; exact le_refl _
      · cases h
    | some u =>
      rw [hm] at h
      cases h
      rcases List.mem_cons.mp hx with h | h
      · subst h; exact le_max_left _ _
      · exact le_trans (ih u hm x h) (le_max_right _ _)

/-! ## The master auto-assignment lemma -/

theorem rowKey_eq_some (row : ModelInstance) (a : String) (w : Int)
    (h : rowKey a row = some w) : getattr row a = some (some w) := by
  unfold rowKey at h
  cases hg : getattr row a with
  | none => rw [hg] at h; cases h
  | some o =>
    cases o with
    | none => rw [hg] at h; cases h
    | some z => rw [hg] at h; simp [Option.join] at h; rw [h]

/-- When the order attribute is `None`, every configured scope attribute
exists on the candidate, and every row of the candidate's scope carries an
order value, `pre_save` succeeds and assigns exactly
`specNext (siblingOrders f db inst)`. -/
theorem pre_save_auto (f : OrderField) (db : List ModelInstance) (inst : ModelInstance)
    (hnone : getattr inst f.attname = some none)
    (hscope : ∀ fld ∈ f.for_fields, (getattr inst fld).isSome)
    (hwf : ∀ r ∈ db, scopeMatches f inst r = true → (rowKey f.attname r).isSome) :
    f.pre_save db inst =
      .ok (setattr inst f.attname (some (specNext (siblingOrders f db inst))),
        specNext (siblingOrders f db inst)) := by
  have h1 : f.pre_save db inst =
      match latest f.attname (db.filter (scopeMatches f inst)) with
      | none => .ok (setattr inst f.attname (some 0), 0)
      | some last =>
        match getattr last f.attname with
        | none => .error (.attributeError f.attname)
        | some none => .error .typeError
        | some (some w) => .ok (setattr inst f.attname (some (w + 1)), w + 1) := by
    unfold OrderField.pre_save
    rw [hnone, filteredQS_eq f db inst hscope]
  rw [h1]
  cases hl : latest f.attname (db.filter (scopeMatches f inst)) with
  | none =>
    have hq : db.filter (scopeMatches f inst) = [] :=
      (latest_eq_none_iff _ _).mp hl
    have hs : siblingOrders f db inst = [] := by
      unfold siblingOrders
      rw [hq]
      rfl
    simp [hs, specNext, maxInt]
  | some last =>
    have hmem : last ∈ db.filter (scopeMatches f inst) := latest_mem _ _ _ hl
    have hmem' : last ∈ db ∧ scopeMatches f inst last = true := by
      have := List.mem_filter.mp hmem
      exact ⟨this.1, this.2⟩
    have hk : (rowKey f.attname last).isSome := hwf last hmem'.1 hmem'.2
    obtain ⟨w, hw⟩ := Option.isSome_iff_exists.mp hk
    have hga : getattr last f.attname = some (some w) := rowKey_eq_some last f.attname w hw
    have hwsib : w ∈ siblingOrders f db inst :=
      List.mem_filterMap.mpr ⟨last, hmem, hw⟩
    have hmax : maxInt (siblingOrders f db inst) = some w := by
      cases hm : maxInt (siblingOrders f db inst) with
      | none =>
        have : siblingOrders f db inst = [] := (maxInt_eq_none_iff _).mp hm
        rw [this] at hwsib
        cases hwsib
      | some m =>
        have hmmem : m ∈ siblingOrders f db inst := maxInt_mem _ _ hm
        obtain ⟨s, hsmem, hsk⟩ := List.mem_filterMap.mp hmmem
        have hle1 : optKeyLe (rowKey f.attname s) (rowKey f.attname last) = true :=
          latest_ge _ _ _ hl s hsmem
        rw [hsk, hw] at hle1
        have hmw : m ≤ w := by simpa [optKeyLe] using hle1
        have hwm : w ≤ m := maxInt_le _ _ hm w hwsib
        rw [le_antisymm hmw hwm]
    show (match getattr last f.attname with
      | none => Except.error (PyError.attributeError f.attname)
      | some none => Except.error PyError.typeError
      | some (some w) => Except.ok (setattr inst f.attname (some (w + 1)), w + 1)) =
      Except.ok (setattr inst f.attname (some (specNext (siblingOrders f db inst))),
        specNext (siblingOrders f db inst))
    rw [hga]
    simp [specNext, hmax]

/-! ## Further helper lemmas -/

theorem list_all_congr {α : Type} {l : List α} {p q : α → Bool}
    (h : ∀ x ∈ l, p x = q x) : l.all p = l.all q := by
  induction l with
  | nil => rfl
  | cons x xs ih =>
    simp only [List.all_cons]
    rw [h x (by simp), ih (fun y hy => h y (by simp [hy]))]

theorem maxInt_eq_of (l : List Int) (m : Int) (hmem : m ∈ l)
    (hub : ∀ x ∈ l, x ≤ m) : maxInt l = some m := by
  cases hm : maxInt l with
  | none =>
    rw [(maxInt_eq_none_iff l).mp hm] at hmem
    cases hmem
  | some u =>
    have h1 : u ≤ m := hub u (maxInt_mem l u hm)
    have h2 : m ≤ u := maxInt_le l u hm m hmem
    rw [le_antisymm h1 h2]

theorem specNext_range (k : Nat) :
    specNext (List.map (fun n : Nat => (n : Int)) (List.range k)) = (k : Int) := by
  cases k with
  | zero => rfl
  | succ n =>
    have hmem : (n : Int) ∈ List.map (fun j : Nat => (j : Int)) (List.range (n + 1)) := by
      simp only [List.mem_map, List.mem_range]
      exact ⟨n, Nat.lt_succ_self n, rfl⟩
    have hub : ∀ x ∈ List.map (fun j : Nat => (j : Int)) (List.range (n + 1)),
        x ≤ (n : Int) := by
      intro x hx
      simp only [List.mem_map, List.mem_range] at hx
      obtain ⟨a, ha, rfl⟩ := hx
      exact_mod_cast Nat.lt_succ_iff.mp ha
    have hsn : maxInt (List.map (fun j : Nat => (j : Int)) (List.range (n + 1))) =
        some (n : Int) := maxInt_eq_of _ _ hmem hub
    unfold specNext
    rw [hsn]
    push_cast
    ring

theorem siblingOrders_append (f : OrderField) (db l2 : List ModelInstance)
    (inst : ModelInstance) :
    siblingOrders f (db ++ l2) inst =
      siblingOrders f db inst ++ siblingOrders f l2 inst := by
  unfold siblingOrders
  rw [List.filter_append, List.filterMap_append]

theorem siblingOrders_singleton (f : OrderField) (inst r : ModelInstance) (k : Int)
    (hm : scopeMatches f inst r = true) (hk : rowKey f.attname r = some k) :
    siblingOrders f [r] inst = [k] := by
  unfold siblingOrders
  simp [List.filter, hm, List.filterMap, hk]

theorem getattr_setattr_of_not_mem (f : OrderField) (inst : ModelInstance)
    (v : Option Int) (fld : String) (hno : f.attname ∉ f.for_fields)
    (hf : fld ∈ f.for_fields) :
    getattr (setattr inst f.attname v) fld = getattr inst fld :=
  getattr_setattr_ne inst f.attname fld v (fun he => hno (he ▸ hf))

theorem scopeMatches_setattr_row (f : OrderField) (inst j : ModelInstance)
    (v : Option Int) (hno : f.attname ∉ f.for_fields)
    (hsame : ∀ fld ∈ f.for_fields, getattr inst fld = getattr j fld) :
    scopeMatches f j (setattr inst f.attname v) = true := by
  unfold scopeMatches
  apply List.all_eq_true.mpr
  intro fld hf
  rw [getattr_setattr_of_not_mem f inst v fld hno hf, hsame fld hf]
  exact beq_self_eq_true _

theorem rowKey_setattr_self (f : OrderField) (inst : ModelInstance) (k : Int) :
    rowKey f.attname (setattr inst f.attname (some k)) = some k := by
  unfold rowKey
  rw [getattr_setattr_self]
  rfl

/-! ## Shape lemmas about `pre_save` results -/

theorem pre_save_ok_attr (f : OrderField) (db : List ModelInstance)
    (inst inst2 : ModelInstance) (v : Int)
    (h : f.pre_save db inst = .ok (inst2, v)) :
    getattr inst2 f.attname = some (some v) := by
  unfold OrderField.pre_save at h
  cases hga : getattr inst f.attname with
  | none => rw [hga] at h; cases h
  | some o =>
    cases o with
    | some u =>
      simp only [hga] at h
      cases h
      exact hga
    | none =>
      simp only [hga] at h
      cases hfq : filteredQS f db inst with
      | error e => rw [hfq] at h; cases h
      | ok qs =>
        simp only [hfq] at h
        cases hl : latest f.attname qs with
        | none =>
          simp only [hl] at h
          cases h
          exact getattr_setattr_self inst f.attname (some 0)
        | some last =>
          simp only [hl] at h
          cases hgl : getattr last f.attname with
          | none => rw [hgl] at h; cases h
          | some o2 =>
            cases o2 with
            | none => rw [hgl] at h; cases h
            | some w =>
              simp only [hgl] at h
              cases h
              exact getattr_setattr_self inst f.attname (some (w + 1))

theorem pre_save_auto_shape (f : OrderField) (db : List ModelInstance)
    (inst inst2 : ModelInstance) (v : Int)
    (hnone : getattr inst f.attname = some none)
    (h : f.pre_save db inst = .ok (inst2, v)) :
    inst2 = setattr inst f.attname (some v) := by
  unfold OrderField.pre_save at h
  simp only [hnone] at h
  cases hfq : filteredQS f db inst with
  | error e => rw [hfq] at h; cases h
  | ok qs =>
    simp only [hfq] at h
    cases hl : latest f.attname qs with
    | none =>
      simp only [hl] at h
      cases h
      rfl
    | some last =>
      simp only [hl] at h
      cases hgl : getattr last f.attname with
      | none => rw [hgl] at h; cases h
      | some o2 =>
        cases o2 with
        | none => rw [hgl] at h; cases h
        | some w =>
          simp only [hgl] at h
          cases h
          rfl

theorem pre_save_value_gt (f : OrderField) (db : List ModelInstance)
    (inst inst2 : ModelInstance) (v : Int)
    (hnone : getattr inst f.attname = some none)
    (hscope : ∀ fld ∈ f.for_fields, (getattr inst fld).isSome)
    (hwf : ∀ r ∈ db, scopeMatches f inst r = true → (rowKey f.attname r).isSome)
    (h : f.pre_save db inst = .ok (inst2, v)) :
    ∀ w ∈ siblingOrders f db inst, w < v := by
  have ha := pre_save_auto f db inst hnone hscope hwf
  rw [ha] at h
  cases h
  intro w hw
  cases hm : maxInt (siblingOrders f db inst) with
  | none =>
    rw [(maxInt_eq_none_iff _).mp hm] at hw
    cases hw
  | some m =>
    have hle := maxInt_le _ _ hm w hw
    have hsn : specNext (siblingOrders f db inst) = m + 1 := by
      unfold specNext
      rw [hm]
    show w < specNext (siblingOrders f db inst)
    rw [hsn]
    omega

/-! ## Sequential insertion -/

theorem saveAll_seq_aux (f : OrderField) (hno : f.attname ∉ f.for_fields)
    (insts : List ModelInstance) :
    ∀ (db : List ModelInstance) (k : Nat),
    (∀ i ∈ insts, getattr i f.attname = some none) →
    (∀ i ∈ insts, ∀ fld ∈ f.for_fields, (getattr i fld).isSome) →
    (∀ i ∈ insts, ∀ j ∈ insts, ∀ fld ∈ f.for_fields, getattr i fld = getattr j fld) →
    (∀ r ∈ db, (rowKey f.attname r).isSome) →
    (∀ i ∈ insts, siblingOrders f db i =
      List.map (fun n : Nat => (n : Int)) (List.range k)) →
    ∃ db2, saveAll f db insts =
      .ok (db2, List.map (fun n : Nat => (n : Int)) (List.range' k insts.length)) := by
  induction insts with
  | nil =>
    intro db k _ _ _ _ _
    exact ⟨db, rfl⟩
  | cons i0 rest ih =>
    intro db k hnone hscope hsame hwf hsib
    have h0 := pre_save_auto f db i0 (hnone i0 (List.mem_cons_self i0 rest))
      (hscope i0 (List.mem_cons_self i0 rest)) (fun r hr _ => hwf r hr)
    rw [hsib i0 (List.mem_cons_self i0 rest), specNext_range k] at h0
    set row := setattr i0 f.attname (some (k : Int)) with hrow
    have hsave : save f db i0 = .ok (db ++ [row], row, (k : Int)) := by
      unfold save
      rw [h0]
    have hmatch : ∀ j ∈ rest, scopeMatches f j row = true := by
      intro j hj
      apply scopeMatches_setattr_row f i0 j _ hno
      intro fld hf
      exact hsame i0 (List.mem_cons_self i0 rest) j (List.mem_cons_of_mem i0 hj) fld hf
    have hsib2 : ∀ j ∈ rest, siblingOrders f (db ++ [row]) j =
        List.map (fun n : Nat => (n : Int)) (List.range (k + 1)) := by
      intro j hj
      rw [siblingOrders_append, hsib j (List.mem_cons_of_mem i0 hj),
        siblingOrders_singleton f j row (k : Int) (hmatch j hj)
          (rowKey_setattr_self f i0 (k : Int)),
        List.range_succ k, List.map_append]
      rfl
    have hwf2 : ∀ r ∈ db ++ [row], (rowKey f.attname r).isSome := by
      intro r hr
      rcases List.mem_append.mp hr with h | h
      · exact hwf r h
      · rcases List.mem_singleton.mp h with rfl
        rw [rowKey_setattr_self f i0 (k : Int)]
        rfl
    obtain ⟨db2, hdb2⟩ := ih (db ++ [row]) (k + 1)
      (fun i hi => hnone i (List.mem_cons_of_mem i0 hi))
      (fun i hi => hscope i (List.mem_cons_of_mem i0 hi))
      (fun i hi j hj => hsame i (List.mem_cons_of_mem i0 hi) j (List.mem_cons_of_mem i0 hj))
      hwf2 hsib2
    refine ⟨db2, ?_⟩
    unfold saveAll
    simp only [hsave, hdb2]
    rfl

/-! ## Uniqueness within scope -/

theorem bool_rearrange (a b c d : Bool) :
    ((a && b) && (c && d)) = ((b && c) && (a && d)) := by
  cases a <;> cases b <;> cases c <;> cases d <;> rfl

theorem ordersUnique_append_singleton (f : OrderField) (l : List ModelInstance)
    (r : ModelInstance) :
    ordersUnique f (l ++ [r]) =
      (l.all (fun s => !(sameScope f s r) || (rowKey f.attname s != rowKey f.attname r))
        && ordersUnique f l) := by
  induction l with
  | nil => simp [ordersUnique]
  | cons x xs ih =>
    show ordersUnique f (x :: (xs ++ [r])) = _
    unfold ordersUnique
    rw [List.all_append, ih]
    simp only [List.all_cons, List.all_nil, Bool.and_true]
    exact bool_rearrange _ _ _ _

/-- Result classifier: did `pre_save` raise an `AttributeError`? -/
def isAttributeError : Except PyError (ModelInstance × Int) → Bool
  | .error (.attributeError _) => true
  | _ => false

/-- Test fixture: a persisted module row with primary key `i`, course `c` and
order `k` (all columns non-NULL, as the schema guarantees). -/
def mrow (i c k : Int) : ModelInstance :=
  ⟨[("id", some i), ("course", some c), ("order", some k)]⟩

/-- Test fixture: a fresh module instance of course `c` whose order attribute
is still `None`. -/
def mnew (c : Int) : ModelInstance :=
  ⟨[("course", some c), ("order", none)]⟩

/-! ## Claims -/

/-- C1: for every candidate record whose order attribute is unset (`None`) at
save time, `pre_save` assigns it one plus the maximum order value among the
existing same-type records matching the candidate on every configured scope
field (`for_fields`), or zero if that filtered sibling set is empty — i.e.
exactly `specNext (siblingOrders f db inst)`, which it both stores on the
candidate and returns. -/
theorem C1_auto_assign_next_order (f : OrderField) (db : List ModelInstance)
    (inst : ModelInstance)
    (hnone : getattr inst f.attname = some none)
    (hscope : ∀ fld ∈ f.for_fields, (getattr inst fld).isSome)
    (hwf : ∀ r ∈ db, scopeMatches f inst r = true → (rowKey f.attname r).isSome) :
    f.pre_save db inst =
      .ok (setattr inst f.attname (some (specNext (siblingOrders f db inst))),
        specNext (siblingOrders f db inst)) :=
  pre_save_auto f db inst hnone hscope hwf

theorem C1_witness :
    moduleOrder.pre_save [mrow 1 1 4] (mnew 1) =
      .ok (setattr (mnew 1) moduleOrder.attname
          (some (specNext (siblingOrders moduleOrder [mrow 1 1 4] (mnew 1)))),
        specNext (siblingOrders moduleOrder [mrow 1 1 4] (mnew 1))) :=
  C1_auto_assign_next_order moduleOrder [mrow 1 1 4] (mnew 1)
    (by decide) (by decide) (by decide)

/-- C2: for every candidate whose order attribute already holds a value at
save time, `pre_save` performs no sibling scan (the database state `db` is
universally quantified and does not influence the result), returns the
existing value unchanged, and leaves the record unmodified. -/
theorem C2_explicit_value_pass_through (f : OrderField) (db : List ModelInstance)
    (inst : ModelInstance) (v : Int)
    (hv : getattr inst f.attname = some (some v)) :
    f.pre_save db inst = .ok (inst, v) := by
  unfold OrderField.pre_save
  rw [hv]

theorem C2_witness :
    moduleOrder.pre_save [mrow 1 1 0] (mrow 2 1 5) = .ok (mrow 2 1 5, 5) :=
  C2_explicit_value_pass_through moduleOrder [mrow 1 1 0] (mrow 2 1 5) 5 (by decide)

/-- C3: inserting N records without an explicit order into the same scope,
starting from a database whose rows are all outside that scope (the scope is
empty), assigns them the order values 0, 1, ..., N-1 in insertion order. -/
theorem C3_insert_n_into_empty_scope (f : OrderField) (db : List ModelInstance)
    (insts : List ModelInstance)
    (hno : f.attname ∉ f.for_fields)
    (hnone : ∀ i ∈ insts, getattr i f.attname = some none)
    (hscope : ∀ i ∈ insts, ∀ fld ∈ f.for_fields, (getattr i fld).isSome)
    (hsame : ∀ i ∈ insts, ∀ j ∈ insts, ∀ fld ∈ f.for_fields,
      getattr i fld = getattr j fld)
    (hwf : ∀ r ∈ db, (rowKey f.attname r).isSome)
    (hempty : ∀ i ∈ insts, db.filter (scopeMatches f i) = []) :
    (saveAll f db insts).map (fun p => p.2) =
      .ok (List.map (fun n : Nat => (n : Int)) (List.range insts.length)) := by
  have hsib : ∀ i ∈ insts, siblingOrders f db i =
      List.map (fun n : Nat => (n : Int)) (List.range 0) := by
    intro i hi
    unfold siblingOrders
    rw [hempty i hi]
    rfl
  obtain ⟨db2, h⟩ := saveAll_seq_aux f hno insts db 0 hnone hscope hsame hwf hsib
  rw [h, List.range_eq_range' insts.length]
  rfl

theorem C3_witness :
    (saveAll moduleOrder [] [mnew 1, mnew 1, mnew 1]).map (fun p => p.2) =
      .ok (List.map (fun n : Nat => (n : Int)) (List.range 3)) :=
  C3_insert_n_into_empty_scope moduleOrder [] [mnew 1, mnew 1, mnew 1]
    (by decide) (by decide) (by decide) (by decide) (by decide) (by decide)

/-- C4: two-run noninterference across scopes: over two database states whose
rows inside the candidate's scope coincide (they differ only in records of
other scopes), `pre_save` behaves identically — records of disjoint scopes
cannot influence the assigned value. -/
theorem C4_scope_noninterference (f : OrderField) (db1 db2 : List ModelInstance)
    (inst : ModelInstance)
    (hfilt : db1.filter (scopeMatches f inst) = db2.filter (scopeMatches f inst)) :
    f.pre_save db1 inst = f.pre_save db2 inst := by
  have hfq : filteredQS f db1 inst = filteredQS f db2 inst := by
    unfold filteredQS
    cases hff : f.for_fields with
    | nil =>
      have h1 : db1.filter (scopeMatches f inst) = db1 :=
        List.filter_eq_self.mpr (fun r _ => by simp [scopeMatches, hff])
      have h2 : db2.filter (scopeMatches f inst) = db2 :=
        List.filter_eq_self.mpr (fun r _ => by simp [scopeMatches, hff])
      have h12 : db1 = db2 := by rw [← h1, hfilt, h2]
      rw [h12]
    | cons f0 rest =>
      cases hq : buildQuery inst (f0 :: rest) with
      | error e => rfl
      | ok q =>
        have hm : ∀ row, matchesQuery q row = scopeMatches f inst row := by
          intro row
          rw [matchesQuery_of_buildQuery inst (f0 :: rest) q hq row]
          unfold scopeMatches
          rw [hff]
        have e1 : db1.filter (matchesQuery q) = db1.filter (scopeMatches f inst) :=
          List.filter_congr (fun row _ => hm row)
        have e2 : db2.filter (matchesQuery q) = db2.filter (scopeMatches f inst) :=
          List.filter_congr (fun row _ => hm row)
        simp only [List.isEmpty_cons, Bool.false_eq_true, if_false, hq]
        rw [e1, e2, hfilt]
  unfold OrderField.pre_save
  rw [hfq]

theorem C4_witness :
    moduleOrder.pre_save [mrow 3 2 7] (mnew 1) = moduleOrder.pre_save [] (mnew 1) :=
  C4_scope_noninterference moduleOrder [mrow 3 2 7] [] (mnew 1) (by decide)

/-- Test fixture for C5: a module of course 1 created with the explicit order
value 0 and primary key 1. -/
def dupA : ModelInstance :=
  ⟨[("id", some 1), ("course", some 1), ("order", some 0)]⟩

/-- Test fixture for C5: a second, distinct module of the same course 1, also
created with the explicit order value 0 (primary key 2). -/
def dupB : ModelInstance :=
  ⟨[("id", some 2), ("course", some 1), ("order", some 0)]⟩

/-- C5 counterexample: order values are NOT unique within a course for every
way records may be created.  Two distinct modules of the same course, both
saved with the explicit order value 0, are accepted as-is by `pre_save` and
persisted; the resulting table has two rows of one scope sharing order 0.
No uniqueness constraint exists on `(course, order)` in the model. -/
theorem C5_counterexample :
    save moduleOrder [] dupA = .ok ([dupA], dupA, 0) ∧
      save moduleOrder [dupA] dupB = .ok ([dupA, dupB], dupB, 0) ∧
      ordersUnique moduleOrder [dupA, dupB] = false := by
  refine ⟨by decide, by decide, by decide⟩

/-- C5 amended: uniqueness of order values within a scope is preserved by
auto-assignment only.  If the table's order values are unique within every
scope and a record whose order attribute is `None` is saved, the resulting
table again has unique order values within every scope; an explicitly set
order value, by contrast, is persisted unchanged and may collide. -/
theorem C5_auto_assign_preserves_uniqueness (f : OrderField)
    (db db2 : List ModelInstance) (inst inst2 : ModelInstance) (v : Int)
    (hno : f.attname ∉ f.for_fields)
    (hnone : getattr inst f.attname = some none)
    (hscope : ∀ fld ∈ f.for_fields, (getattr inst fld).isSome)
    (hwf : ∀ r ∈ db, (rowKey f.attname r).isSome)
    (huniq : ordersUnique f db = true)
    (h : save f db inst = .ok (db2, inst2, v)) :
    ordersUnique f db2 = true := by
  unfold save at h
  cases hp : f.pre_save db inst with
  | error e => rw [hp] at h; cases h
  | ok p =>
    obtain ⟨i2, v2⟩ := p
    simp only [hp] at h
    cases h
    have hshape := pre_save_auto_shape f db inst inst2 v hnone hp
    rw [ordersUnique_append_singleton, Bool.and_eq_true]
    refine ⟨?_, huniq⟩
    apply List.all_eq_true.mpr
    intro s hs
    by_cases hm : sameScope f s inst2 = true
    · have hmatch : scopeMatches f inst s = true := by
        unfold sameScope at hm
        unfold scopeMatches
        apply List.all_eq_true.mpr
        intro fld hf
        have hbe := List.all_eq_true.mp hm fld hf
        rw [hshape, getattr_setattr_of_not_mem f inst (some v) fld hno hf] at hbe
        exact hbe
      obtain ⟨w, hwk⟩ := Option.isSome_iff_exists.mp (hwf s hs)
      have hwsib : w ∈ siblingOrders f db inst :=
        List.mem_filterMap.mpr ⟨s, List.mem_filter.mpr ⟨hs, hmatch⟩, hwk⟩
      have hlt : w < v := pre_save_value_gt f db inst inst2 v hnone hscope
        (fun r hr _ => hwf r hr) hp w hwsib
      have hki : rowKey f.attname inst2 = some v := by
        rw [hshape]
        exact rowKey_setattr_self f inst v
      simp only [hm, Bool.not_true, Bool.false_or]
      rw [hwk, hki]
      apply bne_iff_ne.mpr
      intro hc
      injection hc with hc
      omega
    · simp [hm]

theorem C5_witness :
    ordersUnique moduleOrder
      [mrow 1 1 0, setattr (mnew 1) moduleOrder.attname (some 1)] = true :=
  C5_auto_assign_preserves_uniqueness moduleOrder [mrow 1 1 0]
    [mrow 1 1 0, setattr (mnew 1) moduleOrder.attname (some 1)] (mnew 1)
    (setattr (mnew 1) moduleOrder.attname (some 1)) 1
    (by decide) (by decide) (by decide) (by decide) (by decide) (by decide)

/-- Test fixture for C6: an `OrderField` configured with a scope-attribute
name that does not exist on the candidate model. -/
def bogusField : OrderField := OrderField.init ["missing"] "order"

/-- C6 counterexample: a `for_fields` name that is not an attribute of the
candidate record is NOT fatal at setup time: `OrderField.init` stores it
without validation, and the failure surfaces as a per-record runtime
`AttributeError` raised inside `pre_save` (the uncaught `getattr` in the
query-building dict comprehension). -/
theorem C6_counterexample :
    bogusField = OrderField.init ["missing"] "order" ∧
      bogusField.pre_save [] ⟨[("order", none)]⟩ =
        .error (.attributeError "missing") := by
  refine ⟨rfl, by decide⟩

/-- C6 amended: a configured scope-attribute name missing from the candidate
record is not detected at setup time; instead, whenever `pre_save` runs on a
record whose order attribute is `None`, the scope lookup raises
`AttributeError` — a per-record runtime condition. -/
theorem C6_missing_scope_attr_raises_at_runtime (f : OrderField)
    (db : List ModelInstance) (inst : ModelInstance)
    (hnone : getattr inst f.attname = some none)
    (hmiss : ∃ fld ∈ f.for_fields, getattr inst fld = none) :
    isAttributeError (f.pre_save db inst) = true := by
  obtain ⟨fld, hf, hn⟩ := hmiss
  obtain ⟨g, hg, hgn, hbq⟩ := buildQuery_error_of_missing inst f.for_fields fld hf hn
  have hne : f.for_fields.isEmpty = false := by
    cases hh : f.for_fields with
    | nil => rw [hh] at hg; cases hg
    | cons a b => rfl
  have hfq : filteredQS f db inst = .error (.attributeError g) := by
    unfold filteredQS
    rw [hne]
    simp [hbq]
  unfold OrderField.pre_save
  simp only [hnone, hfq]
  rfl

theorem C6_witness :
    isAttributeError (bogusField.pre_save [] ⟨[("order", none)]⟩) = true :=
  C6_missing_scope_attr_raises_at_runtime bogusField [] ⟨[("order", none)]⟩
    (by decide) (by decide)

/-- C7: when the filtered sibling set is empty (first record of its scope),
`pre_save` does not raise: the empty lookup is handled as the normal case
and the order value 0 is assigned and returned. -/
theorem C7_empty_scope_assigns_zero (f : OrderField) (db : List ModelInstance)
    (inst : ModelInstance)
    (hnone : getattr inst f.attname = some none)
    (hscope : ∀ fld ∈ f.for_fields, (getattr inst fld).isSome)
    (hempty : db.filter (scopeMatches f inst) = []) :
    f.pre_save db inst = .ok (setattr inst f.attname (some 0), 0) := by
  have hwf : ∀ r ∈ db, scopeMatches f inst r = true → (rowKey f.attname r).isSome := by
    intro r hr hm
    have hr2 : r ∈ db.filter (scopeMatches f inst) := List.mem_filter.mpr ⟨hr, hm⟩
    rw [hempty] at hr2
    cases hr2
  have h := pre_save_auto f db inst hnone hscope hwf
  have hs : siblingOrders f db inst = [] := by
    unfold siblingOrders
    rw [hempty]
    rfl
  rw [h, hs]
  rfl

theorem C7_witness :
    moduleOrder.pre_save [mrow 1 2 5] (mnew 1) =
      .ok (setattr (mnew 1) moduleOrder.attname (some 0), 0) :=
  C7_empty_scope_assigns_zero moduleOrder [mrow 1 2 5] (mnew 1)
    (by decide) (by decide) (by decide)

/-- C8: once an order value is set, `pre_save` is idempotent: applying it
again to a record it previously produced (over any database state) returns
the same record and value unchanged. -/
theorem C8_pre_save_idempotent (f : OrderField) (db db2 : List ModelInstance)
    (inst inst2 : ModelInstance) (v : Int)
    (h : f.pre_save db inst = .ok (inst2, v)) :
    f.pre_save db2 inst2 = .ok (inst2, v) := by
  have hv := pre_save_ok_attr f db inst inst2 v h
  unfold OrderField.pre_save
  rw [hv]

theorem C8_witness :
    moduleOrder.pre_save [mrow 9 9 9] (setattr (mnew 1) moduleOrder.attname (some 0)) =
      .ok (setattr (mnew 1) moduleOrder.attname (some 0), 0) :=
  C8_pre_save_idempotent moduleOrder [] [mrow 9 9 9] (mnew 1)
    (setattr (mnew 1) moduleOrder.attname (some 0)) 0 (by decide)

/-- C9: frame condition of auto-assignment.  When `pre_save` auto-computes an
order (the attribute was `None`), the produced record is exactly the input
record with only its order attribute overwritten by the computed value: the
order attribute now holds the returned value `v`, and every other attribute
is unchanged.  (`pre_save` returns no database, so no other record can be
affected.) -/
theorem C9_frame_condition (f : OrderField) (db : List ModelInstance)
    (inst inst2 : ModelInstance) (v : Int)
    (hnone : getattr inst f.attname = some none)
    (h : f.pre_save db inst = .ok (inst2, v)) :
    inst2 = setattr inst f.attname (some v) ∧
      getattr inst2 f.attname = some (some v) ∧
      ∀ fld, fld ≠ f.attname → getattr inst2 fld = getattr inst fld := by
  have hshape := pre_save_auto_shape f db inst inst2 v hnone h
  subst hshape
  exact ⟨rfl, getattr_setattr_self inst f.attname (some v),
    fun fld hf => getattr_setattr_ne inst f.attname fld (some v) (Ne.symm hf)⟩

theorem C9_witness :
    getattr (setattr (mnew 1) moduleOrder.attname (some 0)) moduleOrder.attname =
        some (some 0) ∧
      getattr (setattr (mnew 1) moduleOrder.attname (some 0)) "course" =
        getattr (mnew 1) "course" :=
  ⟨(C9_frame_condition moduleOrder [] (mnew 1)
      (setattr (mnew 1) moduleOrder.attname (some 0)) 0 (by decide) (by decide)).2.1,
    (C9_frame_condition moduleOrder [] (mnew 1)
      (setattr (mnew 1) moduleOrder.attname (some 0)) 0 (by decide) (by decide)).2.2
      "course" (by decide)⟩

/-- C10: whenever `pre_save` auto-assigns an order, the assigned value is
strictly greater than the order of every existing sibling in the scope; in
particular, when the sibling set is non-empty with non-negative orders, the
assigned value is non-negative (and distinct from every sibling's order) —
even when siblings were created with explicit order values. -/
theorem C10_auto_value_exceeds_all_siblings (f : OrderField)
    (db : List ModelInstance) (inst inst2 : ModelInstance) (v : Int)
    (hnone : getattr inst f.attname = some none)
    (hscope : ∀ fld ∈ f.for_fields, (getattr inst fld).isSome)
    (hwf : ∀ r ∈ db, scopeMatches f inst r = true → (rowKey f.attname r).isSome)
    (h : f.pre_save db inst = .ok (inst2, v)) :
    (∀ w ∈ siblingOrders f db inst, w < v) ∧
      (siblingOrders f db inst ≠ [] →
        (∀ w ∈ siblingOrders f db inst, 0 ≤ w) → 0 ≤ v) := by
  have hgt := pre_save_value_gt f db inst inst2 v hnone hscope hwf h
  refine ⟨hgt, fun hne hnn => ?_⟩
  cases hsib : siblingOrders f db inst with
  | nil => exact absurd hsib hne
  | cons w ws =>
    have hw : w ∈ siblingOrders f db inst := by rw [hsib]; exact List.mem_cons_self w ws
    exact le_of_lt (lt_of_le_of_lt (hnn w hw) (hgt w hw))

theorem C10_witness :
    (5 : Int) ∈ siblingOrders moduleOrder [mrow 1 1 5] (mnew 1) ∧ (5 : Int) < 6 :=
  ⟨by decide,
    (C10_auto_value_exceeds_all_siblings moduleOrder [mrow 1 1 5] (mnew 1)
      (setattr (mnew 1) moduleOrder.attname (some 6)) 6
      (by decide) (by decide) (by decide) (by decide)).1 5 (by decide)⟩
